import Mathlib

/-!
# Live speech translator: browser script and translation proxy

A shallow embedding of `backend/public/script.js` (the page script: live
recognition, debounced translation, speech output) and of the `/translate`
handler of `backend/server.js`, with the properties proved about them.

Conventions of the embedding

* DOM fields and module globals read or written by the recognition and
  translation code are fields of one record, `Page`.  Its effects on the
  outside world (alerts, requests to `/translate`, calls on the recognition
  engine) are appended to logs kept in the same record, in program order.
* `speakText` is a function of the global `voices`; the commands it sends to
  the synthesis engine form a trace, `speakTrace`.
* What the outside world answers (the voices the engine reports, whether
  `recognition.start()` throws, the HTTP response) is an explicit argument.
* `String.prototype.toLowerCase` is taken as an argument `lower` of the
  functions that call it, so the results hold for every lower-casing
  function; `String.prototype.trim` is embedded on the code points that
  ECMAScript lists as white space and line terminators.
* Time is a natural number of milliseconds.
-/

namespace LiveSpeech

/-! ## Strings -/

/-- Model of `String.prototype.startsWith(p)`. -/
def startsWith (s p : String) : Bool :=
  p.data.isPrefixOf s.data

/-- ASCII lower-casing, a concrete instance of the `lower` argument. -/
def asciiLower (s : String) : String :=
  ⟨s.data.map Char.toLower⟩

/-- Code points removed by `String.prototype.trim`: ECMAScript WhiteSpace
(TAB, VT, FF, SP, NBSP, ZWNBSP and category Zs) and LineTerminator
(LF, CR, LS, PS). -/
def isJsWhitespace (c : Char) : Bool :=
  let n := c.toNat
  n = 0x09 || n = 0x0A || n = 0x0B || n = 0x0C || n = 0x0D || n = 0x20 ||
  n = 0xA0 || n = 0x1680 || (0x2000 ≤ n && n ≤ 0x200A) ||
  n = 0x2028 || n = 0x2029 || n = 0x202F || n = 0x205F || n = 0x3000 ||
  n = 0xFEFF

/-- Model of `String.prototype.trim` on a list of code points. -/
def trimChars (cs : List Char) : List Char :=
  ((cs.dropWhile isJsWhitespace).reverse.dropWhile isJsWhitespace).reverse

/-- Model of `String.prototype.trim`. -/
def jsTrim (s : String) : String :=
  ⟨trimChars s.data⟩

/-- JavaScript truthiness of a string: non-empty. -/
def truthy (s : String) : Bool :=
  !s.data.isEmpty

/-! ## Speech output (`loadVoices`, `speakText`) -/

/-- A `SpeechSynthesisVoice`.  The script reads only `lang`; `name` tells
apart two voices of one language. -/
structure Voice where
  name : String
  lang : String
deriving DecidableEq, Repr

/-- A `SpeechSynthesisUtterance` as configured by `speakText`. -/
structure Utterance where
  text : String
  voice : Option Voice
  lang : String
deriving DecidableEq, Repr

/-- A command sent to `speechSynthesis`. -/
inductive SynthCmd where
  | cancel
  | speak (u : Utterance)
deriving DecidableEq, Repr

/-- What the host answers to one `speakText` call. -/
structure SynthEnv where
  /-- Value of `'speechSynthesis' in window`. -/
  supported : Bool
  /-- Value of `speechSynthesis.getVoices()` when `loadVoices` starts. -/
  getVoices : List Voice
  /-- Value of `getVoices()` inside the `onvoiceschanged` handler, `none`
  when that event never fires (the promise is then never resolved). -/
  voicesChanged : Option (List Voice)
deriving Repr

/-- The object literal `langMap` of `speakText`: its six keys and their
values.  What the read `langMap[langCode]` finds at any string, members
inherited from `Object.prototype` included, is `langMapLookup`. -/
def langMap (langCode : String) : Option String :=
  if langCode = "kn" then some "kn-IN"
  else if langCode = "te" then some "te-IN"
  else if langCode = "ta" then some "ta-IN"
  else if langCode = "ml" then some "ml-IN"
  else if langCode = "hi" then some "hi-IN"
  else if langCode = "en" then some "en-US"
  else none

/-- Names of the members an object literal inherits from `Object.prototype`
(ECMAScript, Annex B included).  None is a key of `langMap`. -/
def inheritedKeys : List String :=
  ["constructor", "toString", "toLocaleString", "valueOf", "hasOwnProperty", "isPrototypeOf",
   "propertyIsEnumerable", "__proto__", "__defineGetter__", "__defineSetter__",
   "__lookupGetter__", "__lookupSetter__"]

/-- What the read `langMap[langCode]` finds. -/
inductive Lookup where
  /-- A key of the literal, with its tag. -/
  | own (tag : String)
  /-- A member inherited from `Object.prototype`: a truthy value that is not a
  string, so that `targetLang.toLowerCase()` on line 105 throws. -/
  | inherited
  /-- Nothing: the read gives `undefined`. -/
  | absent
deriving DecidableEq, Repr

/-- The read `langMap[langCode]` of line 102. -/
def langMapLookup (langCode : String) : Lookup :=
  match langMap langCode with
  | some tag => .own tag
  | none => if langCode ∈ inheritedKeys then .inherited else .absent

/-- Line 102: `langMap[langCode] || 'en-US'`, for a code at which the read
finds a key of the literal or nothing.  A language code is such a code; the
names in `inheritedKeys` are not, and the results that rest on the target tag
are stated for the other codes. -/
def targetLangOf (langCode : String) : String :=
  (langMap langCode).getD "en-US"

/-- Test of line 105: exact match on the full tag. -/
def exactMatch (lower : String → String) (langCode : String) (v : Voice) : Bool :=
  lower v.lang == lower (targetLangOf langCode)

/-- Test of line 109: the lower-cased tag starts with the code as given. -/
def codeMatch (lower : String → String) (langCode : String) (v : Voice) : Bool :=
  startsWith (lower v.lang) langCode

/-- Test of line 113. -/
def hiMatch (lower : String → String) (v : Voice) : Bool :=
  startsWith (lower v.lang) "hi"

/-- Test of line 114. -/
def enMatch (lower : String → String) (v : Voice) : Bool :=
  startsWith (lower v.lang) "en"

/-- Lines 105-114: the chain of `voices.find` calls, each tried only while
`voice` is still undefined. -/
def resolveVoice (lower : String → String) (voices : List Voice) (langCode : String) :
    Option Voice :=
  let voice := voices.find? (exactMatch lower langCode)
  let voice := if voice.isNone then voices.find? (codeMatch lower langCode) else voice
  let voice := if voice.isNone then voices.find? (hiMatch lower) else voice
  let voice := if voice.isNone then voices.find? (enMatch lower) else voice
  voice

/-- Lines 90-117: the utterance built for `text`. -/
def buildUtterance (lower : String → String) (voices : List Voice) (text langCode : String) :
    Utterance :=
  let voice := resolveVoice lower voices langCode
  { text := text
    voice := voice
    lang := match voice with
      | some v => v.lang
      | none => targetLangOf langCode }

/-- Function `loadVoices`: the list the promise resolves with, `none` when it
never resolves. -/
def loadVoices (env : SynthEnv) : Option (List Voice) :=
  if env.getVoices.length ≠ 0 then some env.getVoices else env.voicesChanged

/-- Line 88: the global `voices` after `if (!voices.length) await loadVoices()`. -/
def voicesAfterLoad (voices : List Voice) (env : SynthEnv) : Option (List Voice) :=
  if voices.length = 0 then loadVoices env else some voices

/-- How one `speakText` call ends. -/
inductive SpeakOutcome where
  /-- Synthesis is not supported: an alert, nothing else. -/
  | unsupported
  /-- Empty text: silent return. -/
  | noText
  /-- The call waits for voices that never arrive. -/
  | waiting
  /-- The call reached lines 119-120 with this voice list and utterance. -/
  | spoke (voices : List Voice) (u : Utterance)
deriving DecidableEq, Repr

/-- Function `speakText(text, langCode)` with the global `voices`. -/
def speakText (lower : String → String) (voices : List Voice) (env : SynthEnv)
    (text langCode : String) : SpeakOutcome :=
  if !env.supported then .unsupported
  else if !truthy text then .noText
  else
    match voicesAfterLoad voices env with
    | none => .waiting
    | some vs => .spoke vs (buildUtterance lower vs text langCode)

/-- Commands a `speakText` call sends to the engine (lines 119-120). -/
def SpeakOutcome.commands : SpeakOutcome → List SynthCmd
  | .spoke _ u => [.cancel, .speak u]
  | _ => []

/-- The global `voices` after a call.  A call that waits has stored the
empty list returned by `getVoices()`. -/
def SpeakOutcome.voicesAfter (voices : List Voice) : SpeakOutcome → List Voice
  | .spoke vs _ => vs
  | .waiting => []
  | _ => voices

/-! ## Page state -/

/-- The status line: `statusEl.textContent` and whether it is drawn in the
error colour. -/
structure Status where
  text : String
  isError : Bool
deriving DecidableEq, Repr

/-- A call on the recognition engine. -/
inductive RecCall where
  | start
  | stop
deriving DecidableEq, Repr

/-- Outcome of `recognition.start()`. -/
inductive StartResult where
  | ok
  | threw (message : String)
deriving DecidableEq, Repr

/-- A pending `setTimeout` callback.  The only callback the script ever
schedules is the one of line 154, which calls `translateText`. -/
structure Timer where
  id : Nat
  deadline : Nat
deriving DecidableEq, Repr

/-- Body of a request to `/translate`. -/
structure TranslateReq where
  q : String
  source : String
  target : String
deriving DecidableEq, Repr

/-- One invocation of `translateText`: when it ran and the value of
`sourceTextEl.value` it read. -/
structure TranslateCall where
  time : Nat
  sourceText : String
deriving DecidableEq, Repr

/-- DOM fields and globals of the script, followed by the logs of its
effects. -/
structure Page where
  /-- Field `sourceTextEl.value`. -/
  sourceText : String
  /-- Field `sourceLangEl.value`. -/
  sourceLang : String
  /-- Field `targetLangEl.value`. -/
  targetLang : String
  /-- Field `translatedTextEl.value`. -/
  translatedText : String
  status : Status
  /-- Field `listenBtn.textContent`. -/
  listenLabel : String
  /-- Global `listening`. -/
  listening : Bool
  /-- Field `recognition.lang`. -/
  recognitionLang : String
  /-- Global `window._translateTimeout`, `none` while undefined. -/
  translateTimeout : Option Nat
  /-- Last timer handle handed out by `setTimeout`. -/
  lastTimerId : Nat
  /-- Timers set and neither fired nor cleared, oldest first. -/
  pendingTimers : List Timer
  /-- Messages shown with `alert`. -/
  alerts : List String
  /-- Calls made on `recognition`. -/
  recCalls : List RecCall
  /-- Requests sent with `fetch('/translate', ...)`. -/
  fetches : List TranslateReq
  /-- Invocations of `translateText`. -/
  translateCalls : List TranslateCall
deriving DecidableEq, Repr

/-- Function `setStatus(text, isError = false)`. -/
def setStatus (text : String) (isError : Bool) (p : Page) : Page :=
  { p with status := ⟨text, isError⟩ }

/-- Label written on lines 163, 174, 177 and 186. -/
def startLabel : String := "ðŸŽ¤ Start Listening"

/-- Label written on line 193. -/
def stopLabel : String := "â¹ Stop Listening"

/-- Host function `setTimeout(cb, delay)`: a fresh positive handle, and the
callback due at `now + delay`. -/
def setTimeout (now delay : Nat) (p : Page) : Nat × Page :=
  let id := p.lastTimerId + 1
  (id, { p with lastTimerId := id, pendingTimers := p.pendingTimers ++ [⟨id, now + delay⟩] })

/-- Host function `clearTimeout(id)`: a no-op when no pending timer has that
handle. -/
def clearTimeout (id : Nat) (p : Page) : Page :=
  { p with pendingTimers := p.pendingTimers.filter (fun tm => tm.id ≠ id) }

/-! ## Translation (`translateText`) -/

/-- A property of the parsed response as the script uses it: in `x || d`
and then converted to a string. -/
inductive JsProp where
  /-- Absent, or a falsy value. -/
  | falsy
  /-- A truthy value, with its conversion to a string. -/
  | shown (s : String)
  /-- A truthy value whose conversion to a string throws. -/
  | unshowable (message : String)
deriving DecidableEq, Repr

/-- What `await res.json()` gives. -/
inductive ResponseData where
  /-- The body is not JSON: the promise rejects with this message. -/
  | notJson (message : String)
  /-- The body is the JSON `null`: reading a property of it throws. -/
  | jsonNull (message : String)
  /-- Any other JSON value, seen through the two properties the script reads. -/
  | json (error : JsProp) (translatedText : JsProp)
deriving DecidableEq, Repr

/-- What `await fetch('/translate', ...)` gives. -/
inductive FetchResult where
  /-- The promise rejects (network failure). -/
  | failed (message : String)
  /-- A response, with `res.ok` and its body. -/
  | response (ok : Bool) (data : ResponseData)
deriving DecidableEq, Repr

/-- Lines 48-64 of `translateText`, up to the `await fetch`: the page, and the
request when one was sent. -/
def translateBegin (now : Nat) (p : Page) : Page × Option TranslateReq :=
  let p := { p with translateCalls := p.translateCalls ++ [⟨now, p.sourceText⟩] }
  let query := jsTrim p.sourceText
  if !truthy query then
    ({ p with alerts := p.alerts ++ ["Please enter text or use live speech."] }, none)
  else
    let source := if p.sourceLang = "auto" then "en" else p.sourceLang
    let target := p.targetLang
    let p := setStatus "Translating..." false p
    let req : TranslateReq := ⟨query, source, target⟩
    ({ p with fetches := p.fetches ++ [req] }, some req)

/-- The `catch` block, lines 75-77. -/
def translateCatch (message : String) (p : Page) : Page :=
  setStatus ("Network/server error: " ++ message) true p

/-- Lines 66-77 of `translateText`: what runs once `fetch` has settled. -/
def translateEnd (r : FetchResult) (p : Page) : Page :=
  match r with
  | .failed message => translateCatch message p
  | .response _ (.notJson message) => translateCatch message p
  | .response _ (.jsonNull message) => translateCatch message p
  | .response false (.json error _) =>
    match error with
    | .falsy => setStatus ("Translation error: " ++ "unknown") true p
    | .shown s => setStatus ("Translation error: " ++ s) true p
    | .unshowable message => translateCatch message p
  | .response true (.json _ translatedText) =>
    match translatedText with
    | .falsy => setStatus "Translated." false { p with translatedText := "" }
    | .shown s => setStatus "Translated." false { p with translatedText := s }
    | .unshowable message => translateCatch message p

/-- Function `translateText()`, run at time `now` with `r` the outcome of the
request it sends (not consulted when no request is sent). -/
def translateText (now : Nat) (r : FetchResult) (p : Page) : Page :=
  match translateBegin now p with
  | (p, none) => p
  | (p, some _) => translateEnd r p

/-! ## Recognition handlers -/

/-- A `SpeechRecognitionAlternative`. -/
structure Alternative where
  transcript : String
deriving DecidableEq, Repr

/-- A `SpeechRecognitionResult`: its alternatives, of which there is at
least one, and the `isFinal` flag. -/
structure RecResult where
  /-- Entry `[0]`. -/
  first : Alternative
  /-- Entries `[1]`, `[2]`, ... -/
  others : List Alternative
  isFinal : Bool
deriving DecidableEq, Repr

/-- The event passed to `recognition.onresult`. -/
structure ResultEvent where
  resultIndex : Nat
  results : List RecResult
deriving DecidableEq, Repr

/-- The `for` loop of lines 144-148, from index `i` with the two
accumulators; returns `(interimTranscript, finalTranscript)`. -/
def transcriptLoop (results : List RecResult) (i : Nat) (interimTranscript finalTranscript : String) :
    String × String :=
  if h : i < results.length then
    let transcript := results[i].first.transcript
    if results[i].isFinal then
      transcriptLoop results (i + 1) interimTranscript (finalTranscript ++ transcript)
    else
      transcriptLoop results (i + 1) (interimTranscript ++ transcript) finalTranscript
  else (interimTranscript, finalTranscript)
termination_by results.length - i

/-- Lines 141-148: `(interimTranscript, finalTranscript)` of an event. -/
def transcripts (ev : ResultEvent) : String × String :=
  transcriptLoop ev.results ev.resultIndex "" ""

/-- Line 153: `if (window._translateTimeout) clearTimeout(window._translateTimeout)`.
A handle is falsy when undefined or zero. -/
def clearTranslateTimeout (p : Page) : Page :=
  match p.translateTimeout with
  | some id => if id ≠ 0 then clearTimeout id p else p
  | none => p

/-- Handler `recognition.onresult`, run at time `now`. -/
def onresult (now : Nat) (ev : ResultEvent) (p : Page) : Page :=
  let (interimTranscript, finalTranscript) := transcripts ev
  let p := { p with sourceText := finalTranscript ++ interimTranscript }
  if truthy (jsTrim finalTranscript) then
    let p := clearTranslateTimeout p
    let (id, p) := setTimeout now 200 p
    { p with translateTimeout := some id }
  else p

/-- Handler `recognition.onerror`; `error` is `e.error`, empty when absent. -/
def onerror (error : String) (p : Page) : Page :=
  let p := setStatus ("Speech recognition error: " ++ (if truthy error then error else "unknown")) true p
  { p with listening := false, listenLabel := startLabel }

/-- Handler `recognition.onend`; `r` is the outcome of `recognition.start()`
should the handler call it. -/
def onend (r : StartResult) (p : Page) : Page :=
  if p.listening then
    let p := { p with recCalls := p.recCalls ++ [RecCall.start] }
    match r with
    | .ok => setStatus "Listening..." false p
    | .threw message =>
      let p := setStatus ("Error restarting recognition: " ++ message) true p
      { p with listening := false, listenLabel := startLabel }
  else
    setStatus "Ready" false { p with listenLabel := startLabel }

/-- Click handler of `listenBtn`; `r` is the outcome of
`recognition.start()` should the handler call it. -/
def listenClick (r : StartResult) (p : Page) : Page :=
  if p.listening then
    let p := { p with recCalls := p.recCalls ++ [RecCall.stop] }
    let p := { p with listening := false, listenLabel := startLabel }
    setStatus "Stopped listening" false p
  else
    let p := { p with
      recognitionLang := if p.sourceLang = "auto" then "en-IN" else p.sourceLang ++ "-IN" }
    let p := { p with recCalls := p.recCalls ++ [RecCall.start] }
    match r with
    | .ok =>
      let p := { p with listening := true, listenLabel := stopLabel }
      setStatus "Listening..." false p
    | .threw message => setStatus ("Could not start listening: " ++ message) true p

/-! ## The event loop -/

/-- Something the host delivers to the page. -/
inductive Event where
  /-- Event `recognition.onresult`. -/
  | result (ev : ResultEvent)
  /-- Event `recognition.onerror` with `e.error`. -/
  | error (code : String)
  /-- Event `recognition.onend`. -/
  | ended (r : StartResult)
  /-- A click on `listenBtn`. -/
  | listenClick (r : StartResult)
  /-- A click on `translateBtn`. -/
  | translateClick
  /-- The request of an earlier `translateText` settles. -/
  | fetchSettled (r : FetchResult)
deriving DecidableEq, Repr

/-- Whether the event is a click on `listenBtn`. -/
def Event.isListenClick : Event → Bool
  | .listenClick _ => true
  | _ => false

/-- The timer callback of line 154 running at its deadline: the timer is no
longer pending, and `translateText` runs up to its `await`. -/
def fireTimer (tm : Timer) (p : Page) : Page :=
  let p := { p with pendingTimers := p.pendingTimers.filter (fun x => x.id ≠ tm.id) }
  (translateBegin tm.deadline p).1

/-- Let time pass until `t`: every pending timer due by then fires, oldest
first. -/
def advanceTo (t : Nat) (p : Page) : Page :=
  (p.pendingTimers.filter (fun tm => tm.deadline ≤ t)).foldl (fun q tm => fireTimer tm q) p

/-- The handler of an event delivered at time `now`. -/
def handle (now : Nat) (e : Event) (p : Page) : Page :=
  match e with
  | .result ev => onresult now ev p
  | .error code => onerror code p
  | .ended r => onend r p
  | .listenClick r => listenClick r p
  | .translateClick => (translateBegin now p).1
  | .fetchSettled r => translateEnd r p

/-- One event delivered at its time: the timers due by then fire first. -/
def deliver (p : Page) (te : Nat × Event) : Page :=
  handle te.1 te.2 (advanceTo te.1 p)

/-- A run of the page over timed events, in order. -/
def run (p : Page) (events : List (Nat × Event)) : Page :=
  events.foldl deliver p

/-! ## The proxy route `POST /translate` (server.js) -/

/-- A parsed JSON value.  Of a number only whether it is zero is observed,
so integers stand for all numbers. -/
inductive Json where
  | null
  | bool (b : Bool)
  | num (n : Int)
  | str (s : String)
  | arr (items : List Json)
  | obj (members : List (String × Json))

/-- Property read `v?.key` for a key that no prototype defines: the member of
an object (the last one when the key is repeated), undefined otherwise. -/
def Json.get? (key : String) : Json → Option Json
  | .obj members => (members.reverse.find? (fun m => m.1 == key)).map (fun m => m.2)
  | _ => none

/-- JavaScript truthiness of a JSON value. -/
def Json.truthy : Json → Bool
  | .null => false
  | .bool b => b
  | .num n => n ≠ 0
  | .str s => !s.data.isEmpty
  | .arr _ => true
  | .obj _ => true

/-- The fields of `req.body` that the handler destructures, `none` when
absent. -/
structure TranslateBody where
  q : Option String
  source : Option String
  target : Option String
deriving DecidableEq, Repr

/-- What `await response.json()` gives on the provider response. -/
inductive ProviderData where
  /-- The body is not JSON: the promise rejects with this message. -/
  | notJson (message : String)
  | json (data : Json)

/-- What `await fetch(url)` gives. -/
inductive ProviderResult where
  /-- The promise rejects. -/
  | failed (message : String)
  /-- A response: `response.ok`, its body as text, and its body parsed. -/
  | response (ok : Bool) (text : String) (data : ProviderData)

/-- Body of the reply of the route. -/
inductive ReplyBody where
  /-- Object `{ error, details }`, `details` absent on some paths. -/
  | error (error : String) (details : Option String)
  /-- Object `{ translatedText }`. -/
  | translated (translatedText : Json)

/-- Reply of the route: HTTP status and body. -/
structure Reply where
  status : Nat
  body : ReplyBody

/-- Truthiness of an optional string field: present and non-empty. -/
def fieldTruthy : Option String → Bool
  | some s => truthy s
  | none => false

/-- The handler of `app.post("/translate", ...)`; `answer` is the outcome of
`fetch(url)`, consulted only when the request is made. -/
def translateHandler (body : TranslateBody) (answer : ProviderResult) : Reply :=
  if !fieldTruthy body.q || !fieldTruthy body.target then
    ⟨400, .error "Missing 'q' or 'target' in request body" none⟩
  else
    match answer with
    | .failed message => ⟨500, .error "Server error" (some message)⟩
    | .response false text _ => ⟨502, .error "Translation provider error" (some text)⟩
    | .response true _ (.notJson message) => ⟨500, .error "Server error" (some message)⟩
    | .response true _ (.json data) =>
      match (data.get? "responseData").bind (Json.get? "translatedText") with
      | some t =>
        if t.truthy then ⟨200, .translated t⟩
        else ⟨502, .error "Invalid response from translation provider" none⟩
      | none => ⟨502, .error "Invalid response from translation provider" none⟩

/-! ## Successive `speakText` calls -/

/-- One call `speakText(text, langCode)` with what the host answers to it. -/
structure SpeakCall where
  env : SynthEnv
  text : String
  langCode : String
deriving Repr

/-- The commands received by `speechSynthesis` over successive `speakText`
calls, each tagged with the number of the call that sent it.  A call has
returned, or is left waiting for voices, when the next one starts.  The calls
are numbered from `k`; the global `voices` is threaded through them. -/
def speakTrace (lower : String → String) :
    List Voice → Nat → List SpeakCall → List (Nat × SynthCmd)
  | _, _, [] => []
  | voices, k, c :: cs =>
    let out := speakText lower voices c.env c.text c.langCode
    out.commands.map (fun cmd => (k, cmd)) ++ speakTrace lower (out.voicesAfter voices) (k + 1) cs

/-- The commands received by `speechSynthesis` from calls listed in the order
in which they reach lines 119-120, each with its number. -/
def engineTrace : List (Nat × SpeakOutcome) → List (Nat × SynthCmd)
  | [] => []
  | o :: os => o.2.commands.map (fun cmd => (o.1, cmd)) ++ engineTrace os

/-- In a trace, every `speak` stands right after a `cancel` sent by the same
call. -/
def CancelFirst (tr : List (Nat × SynthCmd)) : Prop :=
  ∀ j n u, tr[j]? = some (n, SynthCmd.speak u) →
    ∃ i, j = i + 1 ∧ tr[i]? = some (n, SynthCmd.cancel)

/-! ## The split of a result batch, as the specification words it -/

/-- Concatenation of strings in list order. -/
def concatAll : List String → String
  | [] => ""
  | s :: ss => s ++ concatAll ss

/-- The text `F`: first-alternative transcripts of the entries at index
`resultIndex` or later that are marked final, concatenated in index order. -/
def specFinalText (ev : ResultEvent) : String :=
  concatAll (((ev.results.drop ev.resultIndex).filter (fun r => r.isFinal)).map
    (fun r => r.first.transcript))

/-- The text `I`: first-alternative transcripts of the entries at index
`resultIndex` or later that are not marked final, concatenated in index order. -/
def specInterimText (ev : ResultEvent) : String :=
  concatAll (((ev.results.drop ev.resultIndex).filter (fun r => !r.isFinal)).map
    (fun r => r.first.transcript))

/-! ## Timers: well-formed states and bursts -/

/-- Every pending timer is the one whose handle `window._translateTimeout`
holds, and handles are positive.  It holds of the page as loaded (no timer)
and every handler preserves it. -/
def TimerInv (p : Page) : Prop :=
  ∀ tm ∈ p.pendingTimers, p.translateTimeout = some tm.id ∧ tm.id ≠ 0

/-- The page right after a result event with final text handled at time `t`:
one pending timer, due at `t + 200`, whose handle is the stored one. -/
def Armed (q : Page) (t : Nat) (src : String) (calls : List TranslateCall) : Prop :=
  q.pendingTimers = [⟨q.lastTimerId, t + 200⟩] ∧ q.translateTimeout = some q.lastTimerId ∧
  q.lastTimerId ≠ 0 ∧ q.sourceText = src ∧ q.translateCalls = calls

/-- A burst of result events as delivered to the page. -/
def burst (events : List (Nat × ResultEvent)) : List (Nat × Event) :=
  events.map (fun te => (te.1, Event.result te.2))

/-- Successive events of a burst are in time order and less than 200 ms
apart. -/
def CloseTogether (events : List (Nat × ResultEvent)) : Prop :=
  events.Chain' (fun a b => a.1 ≤ b.1 ∧ b.1 < a.1 + 200)

/-! ## Concrete pages and events -/

/-- The page as loaded, English to Kannada, nothing typed and no timer. -/
def loadedPage : Page :=
  { sourceText := "", sourceLang := "en", targetLang := "kn", translatedText := ""
    status := ⟨"", false⟩, listenLabel := startLabel, listening := false, recognitionLang := ""
    translateTimeout := none, lastTimerId := 0, pendingTimers := [], alerts := [], recCalls := []
    fetches := [], translateCalls := [] }

/-- Two result events: `hello` final at 0 ms; at 150 ms the batch holds
`hello ` final and `world` final, reported from index 0. -/
def twoFinals : List (Nat × ResultEvent) :=
  [(0, ⟨0, [⟨⟨"hello"⟩, [], true⟩]⟩),
   (150, ⟨0, [⟨⟨"hello "⟩, [], true⟩, ⟨⟨"world"⟩, [], true⟩]⟩)]

/-- A listening page 50 ms after a final result `hello` handled at 0 ms: the
debounce timer, handle 1, is pending and due at 200 ms. -/
def armedPage : Page :=
  { sourceText := "hello", sourceLang := "en", targetLang := "kn", translatedText := ""
    status := ⟨"Listening...", false⟩, listenLabel := stopLabel, listening := true
    recognitionLang := "en-IN", translateTimeout := some 1, lastTimerId := 1
    pendingTimers := [⟨1, 200⟩], alerts := [], recCalls := [RecCall.start], fetches := []
    translateCalls := [] }

/-! ## Results: voice resolution -/

/-- `List.find?` returns the first element passing the test, wherever the
others stand. -/
theorem find?_first {α : Type} (p : α → Bool) (l : List α) (h : ∃ x ∈ l, p x = true) :
    ∃ pre v post, l = pre ++ v :: post ∧ (∀ u ∈ pre, p u = false) ∧ p v = true ∧
      l.find? p = some v := by
  cases hf : l.find? p with
  | none =>
    obtain ⟨x, hx, hpx⟩ := h
    have := List.find?_eq_none.1 hf x hx
    exact absurd hpx this
  | some v =>
    obtain ⟨hv, pre, post, hl, hpre⟩ := List.find?_eq_some.1 hf
    exact ⟨pre, v, post, hl, fun u hu => by simpa using hpre u hu, hv, rfl⟩

theorem find?_none_of_forall {α : Type} (p : α → Bool) (l : List α)
    (h : ∀ x ∈ l, p x = false) : l.find? p = none := by
  apply List.find?_eq_none.2
  intro x hx
  simp [h x hx]

theorem speakText_spoke (lower : String → String) (voices : List Voice) (env : SynthEnv)
    (text langCode : String) (vs : List Voice)
    (hsup : env.supported = true) (htext : text ≠ "")
    (hload : voicesAfterLoad voices env = some vs) :
    speakText lower voices env text langCode =
      .spoke vs (buildUtterance lower vs text langCode) := by
  have ht : truthy text = true := by
    unfold truthy
    cases text with
    | mk data =>
      cases data with
      | nil => exact absurd rfl htext
      | cons c cs => rfl
  simp [speakText, hsup, ht, hload]

/-- C1. When the code is a key of `langMap` and some voice of the list in use
has a tag equal, after lower-casing, to the mapped tag, `speakText` binds the
first such voice of the list and gives the utterance that voice's tag. -/
theorem speakText_exact_match (lower : String → String) (voices : List Voice) (env : SynthEnv)
    (text langCode tag : String) (vs : List Voice)
    (hsup : env.supported = true) (htext : text ≠ "")
    (htag : langMap langCode = some tag)
    (hload : voicesAfterLoad voices env = some vs)
    (hex : ∃ v ∈ vs, lower v.lang = lower tag) :
    ∃ pre v post, vs = pre ++ v :: post ∧
      (∀ u ∈ pre, lower u.lang ≠ lower tag) ∧ lower v.lang = lower tag ∧
      speakText lower voices env text langCode = .spoke vs ⟨text, some v, v.lang⟩ := by
  have htl : targetLangOf langCode = tag := by simp [targetLangOf, htag]
  have hex2 : ∃ v ∈ vs, exactMatch lower langCode v = true := by
    obtain ⟨v, hv, hm⟩ := hex
    exact ⟨v, hv, by simp [exactMatch, htl, hm]⟩
  obtain ⟨pre, v, post, hl, hpre, hv, hfind⟩ := find?_first _ vs hex2
  refine ⟨pre, v, post, hl, ?_, ?_, ?_⟩
  · intro u hu
    have := hpre u hu
    simpa [exactMatch, htl] using this
  · simpa [exactMatch, htl] using hv
  · rw [speakText_spoke lower voices env text langCode vs hsup htext hload]
    simp [buildUtterance, resolveVoice, hfind]

/-- The concrete case of C1: code `kn`, voices `kn-IN` then `en-US`. -/
theorem speakText_exact_match_witness :
    ∃ pre v post, [Voice.mk "Kannada" "kn-IN", Voice.mk "English" "en-US"] = pre ++ v :: post ∧
      (∀ u ∈ pre, asciiLower u.lang ≠ asciiLower "kn-IN") ∧
      asciiLower v.lang = asciiLower "kn-IN" ∧
      speakText asciiLower [] ⟨true, [Voice.mk "Kannada" "kn-IN", Voice.mk "English" "en-US"], none⟩
          "namaskara" "kn" =
        .spoke [Voice.mk "Kannada" "kn-IN", Voice.mk "English" "en-US"]
          ⟨"namaskara", some v, v.lang⟩ :=
  speakText_exact_match asciiLower [] ⟨true, [⟨"Kannada", "kn-IN"⟩, ⟨"English", "en-US"⟩], none⟩
    "namaskara" "kn" "kn-IN" [⟨"Kannada", "kn-IN"⟩, ⟨"English", "en-US"⟩]
    rfl (by decide) (by decide) (by decide) ⟨⟨"Kannada", "kn-IN"⟩, by decide, by decide⟩

theorem targetLangOf_of_lookup (langCode tag : String)
    (htag : langMapLookup langCode = Lookup.own tag ∨
      (langMapLookup langCode = Lookup.absent ∧ tag = "en-US")) :
    targetLangOf langCode = tag := by
  unfold langMapLookup at htag
  unfold targetLangOf
  cases hm : langMap langCode with
  | none =>
    rw [hm] at htag
    rcases htag with h | ⟨_, h⟩
    · by_cases hk : langCode ∈ inheritedKeys
      · simp [hk] at h
      · simp [hk] at h
    · simp [h]
  | some t =>
    rw [hm] at htag
    rcases htag with h | ⟨h, _⟩
    · simpa using h
    · cases h

/-- C2, as stated, fails at a code outside the map.  For `fr` the map holds
no tag, no voice of the list `en-US`, `hi-IN` has a tag starting with `fr`, and
a voice whose tag starts with `hi` is in the list; yet `speakText` binds the
`en-US` voice, through the exact test against the default tag `en-US`. -/
theorem speakText_fallback_order_counterexample :
    langMap "fr" = none ∧
    langMapLookup "fr" = Lookup.absent ∧
    (∀ v ∈ [Voice.mk "English" "en-US", Voice.mk "Hindi" "hi-IN"],
      startsWith (asciiLower v.lang) "fr" = false) ∧
    (∃ v ∈ [Voice.mk "English" "en-US", Voice.mk "Hindi" "hi-IN"],
      startsWith (asciiLower v.lang) "hi" = true) ∧
    speakText asciiLower [Voice.mk "English" "en-US", Voice.mk "Hindi" "hi-IN"] ⟨true, [], none⟩
        "bonjour" "fr" =
      .spoke [Voice.mk "English" "en-US", Voice.mk "Hindi" "hi-IN"]
        ⟨"bonjour", some (Voice.mk "English" "en-US"), "en-US"⟩ ∧
    speakText asciiLower [Voice.mk "English" "en-US", Voice.mk "Hindi" "hi-IN"] ⟨true, [], none⟩
        "bonjour" "fr" ≠
      .spoke [Voice.mk "English" "en-US", Voice.mk "Hindi" "hi-IN"]
        ⟨"bonjour", some (Voice.mk "Hindi" "hi-IN"), "hi-IN"⟩ := by
  decide

/-- C2, amended. Let `tag` be the target tag of line 102: the mapped tag for
a key of `langMap`, and `en-US` for a code at which the read finds nothing.
When no voice of the list in use has a tag equal to `tag` after lower-casing
and none has a lower-cased tag starting with the code, `speakText` binds the
first voice whose lower-cased tag starts with `hi` if there is one, whatever
`en` voices stand before it, and otherwise the first whose lower-cased tag
starts with `en` if there is one. -/
theorem speakText_fallback_order (lower : String → String) (voices : List Voice) (env : SynthEnv)
    (text langCode tag : String) (vs : List Voice)
    (hsup : env.supported = true) (htext : text ≠ "")
    (htag : langMapLookup langCode = Lookup.own tag ∨
      (langMapLookup langCode = Lookup.absent ∧ tag = "en-US"))
    (hload : voicesAfterLoad voices env = some vs)
    (hexact : ∀ v ∈ vs, lower v.lang ≠ lower tag)
    (hcode : ∀ v ∈ vs, startsWith (lower v.lang) langCode = false) :
    ((∃ v ∈ vs, startsWith (lower v.lang) "hi" = true) →
      ∃ pre v post, vs = pre ++ v :: post ∧
        (∀ u ∈ pre, startsWith (lower u.lang) "hi" = false) ∧
        startsWith (lower v.lang) "hi" = true ∧
        speakText lower voices env text langCode = .spoke vs ⟨text, some v, v.lang⟩) ∧
    ((∀ v ∈ vs, startsWith (lower v.lang) "hi" = false) →
      (∃ v ∈ vs, startsWith (lower v.lang) "en" = true) →
      ∃ pre v post, vs = pre ++ v :: post ∧
        (∀ u ∈ pre, startsWith (lower u.lang) "en" = false) ∧
        startsWith (lower v.lang) "en" = true ∧
        speakText lower voices env text langCode = .spoke vs ⟨text, some v, v.lang⟩) := by
  have htl : targetLangOf langCode = tag := targetLangOf_of_lookup langCode tag htag
  have h1 : vs.find? (exactMatch lower langCode) = none :=
    find?_none_of_forall _ vs (fun v hv => by simpa [exactMatch, htl] using hexact v hv)
  have h2 : vs.find? (codeMatch lower langCode) = none :=
    find?_none_of_forall _ vs (fun v hv => by simpa [codeMatch] using hcode v hv)
  rw [speakText_spoke lower voices env text langCode vs hsup htext hload]
  constructor
  · intro hhi
    obtain ⟨pre, v, post, hl, hpre, hv, hfind⟩ := find?_first (hiMatch lower) vs hhi
    exact ⟨pre, v, post, hl, hpre, hv, by simp [buildUtterance, resolveVoice, h1, h2, hfind]⟩
  · intro hnohi hen
    have h3 : vs.find? (hiMatch lower) = none := find?_none_of_forall _ vs hnohi
    obtain ⟨pre, v, post, hl, hpre, hv, hfind⟩ := find?_first (enMatch lower) vs hen
    exact ⟨pre, v, post, hl, hpre, hv, by simp [buildUtterance, resolveVoice, h1, h2, h3, hfind]⟩

/-- The concrete case of amended C2: code `kn`, voices `en-US` then `hi-IN`;
the `hi-IN` voice is bound. -/
theorem speakText_fallback_order_witness :
    ∃ pre v post, [Voice.mk "English" "en-US", Voice.mk "Hindi" "hi-IN"] = pre ++ v :: post ∧
      (∀ u ∈ pre, startsWith (asciiLower u.lang) "hi" = false) ∧
      startsWith (asciiLower v.lang) "hi" = true ∧
      speakText asciiLower [Voice.mk "English" "en-US", Voice.mk "Hindi" "hi-IN"] ⟨true, [], none⟩
          "namaskara" "kn" =
        .spoke [Voice.mk "English" "en-US", Voice.mk "Hindi" "hi-IN"]
          ⟨"namaskara", some v, v.lang⟩ :=
  (speakText_fallback_order asciiLower [⟨"English", "en-US"⟩, ⟨"Hindi", "hi-IN"⟩] ⟨true, [], none⟩
    "namaskara" "kn" "kn-IN" [⟨"English", "en-US"⟩, ⟨"Hindi", "hi-IN"⟩]
    rfl (by decide) (Or.inl (by decide)) (by decide) (by decide) (by decide)).1
    ⟨⟨"Hindi", "hi-IN"⟩, by decide, by decide⟩

/-! ## Results: one utterance at a time -/

theorem cancelFirst_nil : CancelFirst [] := by
  intro j n u h
  simp at h

theorem cancelFirst_block (k : Nat) (u0 : Utterance) (tr : List (Nat × SynthCmd))
    (h : CancelFirst tr) :
    CancelFirst ((k, SynthCmd.cancel) :: (k, SynthCmd.speak u0) :: tr) := by
  intro j n u hj
  match j, hj with
  | 0, hj => simp at hj
  | 1, hj =>
    simp at hj
    exact ⟨0, rfl, by simp [hj.1]⟩
  | j + 2, hj =>
    simp only [List.getElem?_cons_succ] at hj
    obtain ⟨i, hi, hget⟩ := h j n u hj
    exact ⟨i + 2, by omega, by simpa using hget⟩

theorem speakTrace_cancelFirst (lower : String → String) (calls : List SpeakCall) :
    ∀ (voices : List Voice) (k : Nat), CancelFirst (speakTrace lower voices k calls) := by
  induction calls with
  | nil => intro voices k; exact cancelFirst_nil
  | cons c cs ih =>
    intro voices k
    unfold speakTrace
    cases hout : speakText lower voices c.env c.text c.langCode with
    | unsupported => simpa [SpeakOutcome.commands] using ih _ _
    | noText => simpa [SpeakOutcome.commands] using ih _ _
    | waiting => simpa [SpeakOutcome.commands] using ih _ _
    | spoke vs u0 =>
      simpa [SpeakOutcome.commands] using cancelFirst_block k u0 _ (ih _ _)

/-- Whatever the order in which calls reach lines 119-120, each sends its
`cancel` and its `speak` back to back: the trace of any list of outcomes keeps
every `speak` right after the `cancel` of the same call. -/
theorem engineTrace_cancelFirst (outs : List (Nat × SpeakOutcome)) :
    CancelFirst (engineTrace outs) := by
  induction outs with
  | nil => exact cancelFirst_nil
  | cons o os ih =>
    obtain ⟨k, out⟩ := o
    unfold engineTrace
    cases out with
    | unsupported => simpa [SpeakOutcome.commands] using ih
    | noText => simpa [SpeakOutcome.commands] using ih
    | waiting => simpa [SpeakOutcome.commands] using ih
    | spoke vs u0 => simpa [SpeakOutcome.commands] using cancelFirst_block k u0 _ ih

theorem speakTrace_tag_ge (lower : String → String) (calls : List SpeakCall) :
    ∀ (voices : List Voice) (k : Nat) (e : Nat × SynthCmd),
      e ∈ speakTrace lower voices k calls → k ≤ e.1 := by
  induction calls with
  | nil => intro voices k e h; simp [speakTrace] at h
  | cons c cs ih =>
    intro voices k e h
    unfold speakTrace at h
    rcases List.mem_append.1 h with h | h
    · obtain ⟨cmd, _, rfl⟩ := List.mem_map.1 h
      exact Nat.le_refl _
    · exact Nat.le_of_succ_le (ih _ _ e h)

theorem append_tag_order (b1 b2 : List (Nat × SynthCmd)) (i m : Nat) (x y : SynthCmd)
    (hb1 : ∀ e ∈ b1, e.1 = 0) (hb2 : ∀ e ∈ b2, 1 ≤ e.1)
    (hi : (b1 ++ b2)[i]? = some (0, x)) (hm : (b1 ++ b2)[m]? = some (1, y)) : i < m := by
  have h1 : i < b1.length := by
    by_contra hcon
    have hge : b1.length ≤ i := Nat.le_of_not_lt hcon
    rw [List.getElem?_append_right hge] at hi
    have := hb2 _ (List.getElem?_mem hi)
    simp at this
  have h2 : b1.length ≤ m := by
    by_contra hcon
    have hlt : m < b1.length := Nat.lt_of_not_le hcon
    rw [List.getElem?_append_left hlt] at hm
    have := hb1 _ (List.getElem?_mem hm)
    simp at this
  omega

theorem speakTrace_pair_order (lower : String → String) (voices : List Voice)
    (c1 c2 : SpeakCall) (i m : Nat) (x y : SynthCmd)
    (hi : (speakTrace lower voices 0 [c1, c2])[i]? = some (0, x))
    (hm : (speakTrace lower voices 0 [c1, c2])[m]? = some (1, y)) : i < m := by
  unfold speakTrace at hi hm
  refine append_tag_order _ _ i m x y ?_ ?_ hi hm
  · intro e he
    obtain ⟨cmd, _, rfl⟩ := List.mem_map.1 he
    rfl
  · intro e he
    exact speakTrace_tag_ge lower [c2] _ _ e he

/-- C6. Over any succession of `speakText` calls every `speak` received by
the engine stands right after a `cancel` sent by the same call; with two
calls, the `cancel` of the second stands after the `speak` of the first and
right before the `speak` of the second; and two calls that both get as far as
the engine produce exactly cancel, speak, cancel, speak. -/
theorem speak_preceded_by_cancel (lower : String → String) (voices : List Voice) :
    (∀ calls : List SpeakCall, ∀ j n u,
      (speakTrace lower voices 0 calls)[j]? = some (n, SynthCmd.speak u) →
      ∃ i, j = i + 1 ∧ (speakTrace lower voices 0 calls)[i]? = some (n, SynthCmd.cancel)) ∧
    (∀ (c1 c2 : SpeakCall) (i j : Nat) (u1 u2 : Utterance),
      (speakTrace lower voices 0 [c1, c2])[i]? = some (0, SynthCmd.speak u1) →
      (speakTrace lower voices 0 [c1, c2])[j]? = some (1, SynthCmd.speak u2) →
      ∃ m, i < m ∧ j = m + 1 ∧
        (speakTrace lower voices 0 [c1, c2])[m]? = some (1, SynthCmd.cancel)) ∧
    (∀ (c1 c2 : SpeakCall) (vs1 vs2 : List Voice),
      c1.env.supported = true → c2.env.supported = true → c1.text ≠ "" → c2.text ≠ "" →
      voicesAfterLoad voices c1.env = some vs1 → voicesAfterLoad vs1 c2.env = some vs2 →
      speakTrace lower voices 0 [c1, c2] =
        [(0, SynthCmd.cancel), (0, SynthCmd.speak (buildUtterance lower vs1 c1.text c1.langCode)),
         (1, SynthCmd.cancel), (1, SynthCmd.speak (buildUtterance lower vs2 c2.text c2.langCode))]) := by
  refine ⟨fun calls => speakTrace_cancelFirst lower calls voices 0, ?_, ?_⟩
  · intro c1 c2 i j u1 u2 hi hj
    obtain ⟨m, hm, hget⟩ := speakTrace_cancelFirst lower [c1, c2] voices 0 j 1 u2 hj
    exact ⟨m, speakTrace_pair_order lower voices c1 c2 i m _ _ hi hget, hm, hget⟩
  · intro c1 c2 vs1 vs2 hs1 hs2 ht1 ht2 hl1 hl2
    have e1 := speakText_spoke lower voices c1.env c1.text c1.langCode vs1 hs1 ht1 hl1
    have e2 := speakText_spoke lower vs1 c2.env c2.text c2.langCode vs2 hs2 ht2 hl2
    simp [speakTrace, e1, e2, SpeakOutcome.commands, SpeakOutcome.voicesAfter]

/-- The concrete case of C6: two calls on a page whose voices are loaded. -/
theorem speak_preceded_by_cancel_witness :
    ∃ m, 1 < m ∧ 3 = m + 1 ∧
      (speakTrace asciiLower [Voice.mk "Hindi" "hi-IN"] 0
        [⟨⟨true, [], none⟩, "one", "hi"⟩, ⟨⟨true, [], none⟩, "two", "hi"⟩])[m]? =
        some (1, SynthCmd.cancel) :=
  (speak_preceded_by_cancel asciiLower [⟨"Hindi", "hi-IN"⟩]).2.1
    ⟨⟨true, [], none⟩, "one", "hi"⟩ ⟨⟨true, [], none⟩, "two", "hi"⟩ 1 3
    ⟨"one", some ⟨"Hindi", "hi-IN"⟩, "hi-IN"⟩ ⟨"two", some ⟨"Hindi", "hi-IN"⟩, "hi-IN"⟩
    (by decide) (by decide)

/-! ## Results: the split of a result batch -/

theorem transcriptLoop_eq (results : List RecResult) :
    ∀ (n i : Nat) (interim final : String), results.length - i = n →
      transcriptLoop results i interim final =
        (interim ++ concatAll (((results.drop i).filter (fun r => !r.isFinal)).map
            (fun r => r.first.transcript)),
         final ++ concatAll (((results.drop i).filter (fun r => r.isFinal)).map
            (fun r => r.first.transcript))) := by
  intro n
  induction n with
  | zero =>
    intro i interim final hn
    have hle : results.length ≤ i := by omega
    unfold transcriptLoop
    simp [Nat.not_lt.2 hle, List.drop_eq_nil_of_le hle, concatAll]
  | succ n ih =>
    intro i interim final hn
    have hlt : i < results.length := by omega
    unfold transcriptLoop
    rw [List.drop_eq_getElem_cons hlt]
    simp only [hlt, dite_true]
    cases hf : results[i].isFinal with
    | true =>
      rw [if_pos rfl, ih (i + 1) _ _ (by omega)]
      generalize List.drop (i + 1) results = rest
      simp [List.filter_cons, hf, concatAll, String.append_assoc]
    | false =>
      rw [if_neg (by simp), ih (i + 1) _ _ (by omega)]
      generalize List.drop (i + 1) results = rest
      simp [List.filter_cons, hf, concatAll, String.append_assoc]

theorem transcripts_eq (ev : ResultEvent) :
    transcripts ev = (specInterimText ev, specFinalText ev) := by
  unfold transcripts specInterimText specFinalText
  rw [transcriptLoop_eq ev.results _ ev.resultIndex "" "" rfl]
  simp

theorem onresult_sourceText (now : Nat) (ev : ResultEvent) (p : Page) :
    (onresult now ev p).sourceText = (transcripts ev).2 ++ (transcripts ev).1 := by
  obtain ⟨a1, a2, a3, a4, a5, a6, a7, a8, a9, a10, a11, a12, a13, a14, a15⟩ := p
  unfold onresult setTimeout clearTranslateTimeout clearTimeout
  simp only
  split
  · split
    · split <;> rfl
    · rfl
  · rfl

theorem onresult_writes (now : Nat) (ev : ResultEvent) (p : Page) :
    (onresult now ev p).sourceText = specFinalText ev ++ specInterimText ev := by
  rw [onresult_sourceText, transcripts_eq]

/-- C10. The source text written by `recognition.onresult` is `F ++ I`: the
final entries from `resultIndex` on, in index order, followed by the
non-final entries from `resultIndex` on, in index order; entries below
`resultIndex` do not appear.  The loop also ends for a `resultIndex` beyond
the length, writing the empty text. -/
theorem onresult_partial_final_split (now : Nat) (ev : ResultEvent) (p : Page) :
    (onresult now ev p).sourceText = specFinalText ev ++ specInterimText ev :=
  onresult_writes now ev p

/-! ## Results: `translateText` -/

theorem trimChars_of_all_whitespace (cs : List Char)
    (h : ∀ c ∈ cs, isJsWhitespace c = true) : trimChars cs = [] := by
  have h1 : cs.dropWhile isJsWhitespace = [] := List.dropWhile_eq_nil_iff.2 h
  simp [trimChars, h1]

theorem truthy_ne_empty (s : String) : truthy s = true ↔ s ≠ "" := by
  obtain ⟨data⟩ := s
  cases data with
  | nil => simp [truthy]
  | cons c cs =>
    simp only [truthy, List.isEmpty_cons, Bool.not_false, true_iff]
    intro h
    have := congrArg String.data h
    simp at this

theorem translateBegin_blank (now : Nat) (p : Page) (h : truthy (jsTrim p.sourceText) = false) :
    translateBegin now p =
      ({ p with
          translateCalls := p.translateCalls ++ [⟨now, p.sourceText⟩]
          alerts := p.alerts ++ ["Please enter text or use live speech."] }, none) := by
  simp [translateBegin, h]

theorem translateBegin_nonblank (now : Nat) (p : Page) (h : truthy (jsTrim p.sourceText) = true) :
    translateBegin now p =
      ({ p with
          translateCalls := p.translateCalls ++ [⟨now, p.sourceText⟩]
          status := ⟨"Translating...", false⟩
          fetches := p.fetches ++
            [⟨jsTrim p.sourceText, if p.sourceLang = "auto" then "en" else p.sourceLang,
              p.targetLang⟩] },
       some ⟨jsTrim p.sourceText, if p.sourceLang = "auto" then "en" else p.sourceLang,
              p.targetLang⟩) := by
  simp [translateBegin, h, setStatus]

/-- C4. When the source text is empty or made of white space only,
`translateText` sends no request to `/translate` and leaves the translated
text as it was; it shows the alert and does not touch the status line. -/
theorem translateText_blank_no_request (now : Nat) (r : FetchResult) (p : Page)
    (hblank : ∀ c ∈ p.sourceText.data, isJsWhitespace c = true) :
    (translateBegin now p).2 = none ∧
    (translateText now r p).fetches = p.fetches ∧
    (translateText now r p).translatedText = p.translatedText ∧
    (translateText now r p).status = p.status ∧
    (translateText now r p).alerts = p.alerts ++ ["Please enter text or use live speech."] := by
  have h : truthy (jsTrim p.sourceText) = false := by
    simp [truthy, jsTrim, trimChars_of_all_whitespace _ hblank]
  simp [translateText, translateBegin_blank now p h]

/-- The concrete case of C4: a source text of two spaces and a line feed. -/
theorem translateText_blank_no_request_witness :
    (translateText 0 (FetchResult.response true (ResponseData.json JsProp.falsy (JsProp.shown "x")))
      { loadedPage with sourceText := "  \n", translatedText := "old" }).fetches = [] ∧
    (translateText 0 (FetchResult.response true (ResponseData.json JsProp.falsy (JsProp.shown "x")))
      { loadedPage with sourceText := "  \n", translatedText := "old" }).translatedText = "old" :=
  ⟨(translateText_blank_no_request 0
      (FetchResult.response true (ResponseData.json JsProp.falsy (JsProp.shown "x")))
      { loadedPage with sourceText := "  \n", translatedText := "old" } (by decide)).2.1,
   (translateText_blank_no_request 0
      (FetchResult.response true (ResponseData.json JsProp.falsy (JsProp.shown "x")))
      { loadedPage with sourceText := "  \n", translatedText := "old" } (by decide)).2.2.1⟩

theorem translation_error_ne_translated (s : String) :
    "Translation error: " ++ s ≠ "Translated." := by
  intro h
  have := congrArg String.data h
  simp [String.data_append] at this

theorem network_error_ne_translated (s : String) :
    "Network/server error: " ++ s ≠ "Translated." := by
  intro h
  have := congrArg String.data h
  simp [String.data_append] at this

/-- What `translateEnd` does with a response whose `res.ok` is false. -/
theorem translateEnd_not_ok (data : ResponseData) (p : Page) :
    (translateEnd (.response false data) p).status.isError = true ∧
    (translateEnd (.response false data) p).status.text ≠ "Translated." ∧
    ((∃ s, (translateEnd (.response false data) p).status.text = "Translation error: " ++ s) ∨
     (∃ m, (translateEnd (.response false data) p).status.text = "Network/server error: " ++ m)) ∧
    (translateEnd (.response false data) p).listening = p.listening ∧
    (translateEnd (.response false data) p).translatedText = p.translatedText := by
  cases data with
  | notJson m =>
    simp [translateEnd, translateCatch, setStatus, network_error_ne_translated]
  | jsonNull m =>
    simp [translateEnd, translateCatch, setStatus, network_error_ne_translated]
  | json e t =>
    cases e with
    | falsy =>
      unfold translateEnd setStatus
      exact ⟨rfl, translation_error_ne_translated _, Or.inl ⟨_, rfl⟩, rfl, rfl⟩
    | shown x =>
      unfold translateEnd setStatus
      exact ⟨rfl, translation_error_ne_translated _, Or.inl ⟨_, rfl⟩, rfl, rfl⟩
    | unshowable m =>
      simp [translateEnd, translateCatch, setStatus, network_error_ne_translated]

/-- C7. With a non-blank source text and a response whose status is not a
success, `translateText` ends with the status line in the error colour and
holding an error message, never `Translated.`: `Translation error: ` followed
by the `error` of the body, or by `unknown` when the body has none, and
`Network/server error: ` followed by the exception message when the body
cannot be read.  The listening flag and the translated text are as before the
call. -/
theorem translateText_http_error_surfaced (now : Nat) (data : ResponseData) (p : Page)
    (hsrc : jsTrim p.sourceText ≠ "") :
    (translateText now (.response false data) p).status.isError = true ∧
    (translateText now (.response false data) p).status.text ≠ "Translated." ∧
    ((∃ s, (translateText now (.response false data) p).status.text = "Translation error: " ++ s) ∨
     (∃ m, (translateText now (.response false data) p).status.text =
        "Network/server error: " ++ m)) ∧
    (∀ e t, data = .json (.shown e) t →
      (translateText now (.response false data) p).status = ⟨"Translation error: " ++ e, true⟩) ∧
    (∀ t, data = .json .falsy t →
      (translateText now (.response false data) p).status = ⟨"Translation error: unknown", true⟩) ∧
    (translateText now (.response false data) p).listening = p.listening ∧
    (translateText now (.response false data) p).translatedText = p.translatedText := by
  have h : truthy (jsTrim p.sourceText) = true := (truthy_ne_empty _).2 hsrc
  have hstep : translateText now (.response false data) p =
      translateEnd (.response false data) (translateBegin now p).1 := by
    simp [translateText, translateBegin_nonblank now p h]
  rw [hstep]
  obtain ⟨h1, h2, h3, h4, h5⟩ := translateEnd_not_ok data (translateBegin now p).1
  refine ⟨h1, h2, h3, ?_, ?_, ?_, ?_⟩
  · intro e t hd
    subst hd
    simp [translateEnd, setStatus]
  · intro t hd
    subst hd
    simp only [translateEnd, setStatus]
    rfl
  · rw [h4, translateBegin_nonblank now p h]
  · rw [h5, translateBegin_nonblank now p h]

/-- The concrete case of C7: the proxy answers 502 with its error object while
the page is listening. -/
theorem translateText_http_error_surfaced_witness :
    (translateText 250
      (FetchResult.response false
        (ResponseData.json (JsProp.shown "Translation provider error") JsProp.falsy))
      armedPage).status = ⟨"Translation error: Translation provider error", true⟩ ∧
    (translateText 250
      (FetchResult.response false
        (ResponseData.json (JsProp.shown "Translation provider error") JsProp.falsy))
      armedPage).listening = true :=
  ⟨(translateText_http_error_surfaced 250
      (ResponseData.json (JsProp.shown "Translation provider error") JsProp.falsy)
      armedPage (by decide)).2.2.2.1 "Translation provider error" JsProp.falsy rfl,
   (translateText_http_error_surfaced 250
      (ResponseData.json (JsProp.shown "Translation provider error") JsProp.falsy)
      armedPage (by decide)).2.2.2.2.2.1⟩

/-! ## Results: restart and stop -/

theorem translateBegin_rec (now : Nat) (p : Page) :
    (translateBegin now p).1.listening = p.listening ∧
    (translateBegin now p).1.recCalls = p.recCalls := by
  unfold translateBegin setStatus
  simp only
  split <;> exact ⟨rfl, rfl⟩

theorem translateEnd_rec (r : FetchResult) (p : Page) :
    (translateEnd r p).listening = p.listening ∧ (translateEnd r p).recCalls = p.recCalls := by
  unfold translateEnd translateCatch setStatus
  split
  · exact ⟨rfl, rfl⟩
  · exact ⟨rfl, rfl⟩
  · exact ⟨rfl, rfl⟩
  · split <;> exact ⟨rfl, rfl⟩
  · split <;> exact ⟨rfl, rfl⟩

theorem onresult_rec (now : Nat) (ev : ResultEvent) (p : Page) :
    (onresult now ev p).listening = p.listening ∧ (onresult now ev p).recCalls = p.recCalls := by
  obtain ⟨a1, a2, a3, a4, a5, a6, a7, a8, a9, a10, a11, a12, a13, a14, a15⟩ := p
  unfold onresult setTimeout clearTranslateTimeout clearTimeout
  simp only
  split
  · split
    · split <;> exact ⟨rfl, rfl⟩
    · exact ⟨rfl, rfl⟩
  · exact ⟨rfl, rfl⟩

theorem fireTimer_rec (tm : Timer) (p : Page) :
    (fireTimer tm p).listening = p.listening ∧ (fireTimer tm p).recCalls = p.recCalls := by
  unfold fireTimer
  simp only
  obtain ⟨h1, h2⟩ := translateBegin_rec tm.deadline
    { p with pendingTimers := p.pendingTimers.filter (fun x => x.id ≠ tm.id) }
  exact ⟨h1, h2⟩

theorem foldl_fireTimer_rec (tms : List Timer) :
    ∀ p : Page, (tms.foldl (fun q tm => fireTimer tm q) p).listening = p.listening ∧
      (tms.foldl (fun q tm => fireTimer tm q) p).recCalls = p.recCalls := by
  induction tms with
  | nil => intro p; exact ⟨rfl, rfl⟩
  | cons tm tms ih =>
    intro p
    simp only [List.foldl_cons]
    obtain ⟨h1, h2⟩ := ih (fireTimer tm p)
    obtain ⟨h3, h4⟩ := fireTimer_rec tm p
    exact ⟨h1.trans h3, h2.trans h4⟩

theorem advanceTo_rec (t : Nat) (p : Page) :
    (advanceTo t p).listening = p.listening ∧ (advanceTo t p).recCalls = p.recCalls :=
  foldl_fireTimer_rec _ p

theorem onend_not_listening (r : StartResult) (p : Page) (h : p.listening = false) :
    onend r p = setStatus "Ready" false { p with listenLabel := startLabel } := by
  simp [onend, h]

/-- An event other than a click on the listen button, delivered while the
page is not listening, leaves it not listening and calls nothing on the
recognition engine. -/
theorem deliver_not_listening (p : Page) (te : Nat × Event)
    (hnc : te.2.isListenClick = false) (hl : p.listening = false) :
    (deliver p te).listening = false ∧ (deliver p te).recCalls = p.recCalls := by
  obtain ⟨t, e⟩ := te
  obtain ⟨h1, h2⟩ := advanceTo_rec t p
  rw [hl] at h1
  cases e with
  | result ev =>
    obtain ⟨h3, h4⟩ := onresult_rec t ev (advanceTo t p)
    exact ⟨h3.trans h1, h4.trans h2⟩
  | error code =>
    show (onerror code (advanceTo t p)).listening = false ∧
      (onerror code (advanceTo t p)).recCalls = p.recCalls
    simp [onerror, setStatus, h2]
  | ended r =>
    show (onend r (advanceTo t p)).listening = false ∧
      (onend r (advanceTo t p)).recCalls = p.recCalls
    rw [onend_not_listening r _ h1]
    exact ⟨h1, h2⟩
  | listenClick r => simp [Event.isListenClick] at hnc
  | translateClick =>
    obtain ⟨h3, h4⟩ := translateBegin_rec t (advanceTo t p)
    exact ⟨h3.trans h1, h4.trans h2⟩
  | fetchSettled r =>
    obtain ⟨h3, h4⟩ := translateEnd_rec r (advanceTo t p)
    exact ⟨h3.trans h1, h4.trans h2⟩

theorem run_not_listening (events : List (Nat × Event)) :
    ∀ p : Page, (∀ te ∈ events, te.2.isListenClick = false) → p.listening = false →
      (run p events).listening = false ∧ (run p events).recCalls = p.recCalls := by
  induction events with
  | nil => intro p _ hl; exact ⟨hl, rfl⟩
  | cons te tes ih =>
    intro p hnc hl
    obtain ⟨h1, h2⟩ := deliver_not_listening p te (hnc te (List.mem_cons_self _ _)) hl
    obtain ⟨h3, h4⟩ := ih (deliver p te) (fun x hx => hnc x (List.mem_cons_of_mem _ hx)) h1
    exact ⟨h3, h4.trans h2⟩

/-- C5. While the page is listening: (1) an `onend` whose `start()` succeeds
calls `start()` once and nothing else on the engine, keeps the flag set and
shows `Listening...` as a plain status; (2) a click on the listen button
calls `stop()`, clears the flag, and over any later events that contain no
further click on that button (results, errors, any number of `onend`, timers
firing, translations) the flag stays clear and no call at all, hence no
`start()`, reaches the engine. -/
theorem restart_and_stop (p : Page) (hl : p.listening = true) :
    ((onend StartResult.ok p).recCalls = p.recCalls ++ [RecCall.start] ∧
      (onend StartResult.ok p).listening = true ∧
      (onend StartResult.ok p).status = ⟨"Listening...", false⟩) ∧
    (∀ r : StartResult,
      (listenClick r p).listening = false ∧
      (listenClick r p).recCalls = p.recCalls ++ [RecCall.stop] ∧
      ∀ events : List (Nat × Event), (∀ te ∈ events, te.2.isListenClick = false) →
        (run (listenClick r p) events).listening = false ∧
        (run (listenClick r p) events).recCalls = p.recCalls ++ [RecCall.stop]) := by
  constructor
  · simp [onend, hl, setStatus]
  · intro r
    have h1 : (listenClick r p).listening = false := by simp [listenClick, hl, setStatus]
    have h2 : (listenClick r p).recCalls = p.recCalls ++ [RecCall.stop] := by
      simp [listenClick, hl, setStatus]
    refine ⟨h1, h2, ?_⟩
    intro events hnc
    obtain ⟨h3, h4⟩ := run_not_listening events (listenClick r p) hnc h1
    exact ⟨h3, h4.trans h2⟩

/-- The concrete case of C5: a listening page is stopped, then the engine
ends twice around an error. -/
theorem restart_and_stop_witness :
    (run (listenClick StartResult.ok armedPage)
      [(10, Event.ended StartResult.ok), (20, Event.error "aborted"),
        (30, Event.ended StartResult.ok)]).recCalls = [RecCall.start] ++ [RecCall.stop] :=
  (((restart_and_stop armedPage rfl).2 StartResult.ok).2.2
    [(10, Event.ended StartResult.ok), (20, Event.error "aborted"),
      (30, Event.ended StartResult.ok)] (by decide)).2

/-! ## Results: debounce -/

theorem advanceTo_none_due (t : Nat) (p : Page)
    (h : ∀ tm ∈ p.pendingTimers, t < tm.deadline) : advanceTo t p = p := by
  have hf : p.pendingTimers.filter (fun tm => tm.deadline ≤ t) = [] := by
    apply List.filter_eq_nil_iff.2
    intro tm htm
    have := h tm htm
    simp
    omega
  simp [advanceTo, hf]

theorem clearTranslateTimeout_pending (p : Page) (hinv : TimerInv p) :
    (clearTranslateTimeout p).pendingTimers = [] := by
  unfold clearTranslateTimeout
  cases hto : p.translateTimeout with
  | none =>
    simp only
    cases hp : p.pendingTimers with
    | nil => rfl
    | cons tm tms =>
      have := (hinv tm (by simp [hp])).1
      rw [hto] at this
      cases this
  | some id =>
    simp only
    cases hp : p.pendingTimers with
    | nil =>
      split
      · simp [clearTimeout, hp]
      · exact hp
    | cons tm tms =>
      have h0 := hinv tm (by simp [hp])
      have hid : id = tm.id := by
        have := h0.1
        rw [hto] at this
        exact Option.some.inj this
      have hne : id ≠ 0 := hid ▸ h0.2
      rw [if_pos hne]
      simp only [clearTimeout]
      apply List.filter_eq_nil_iff.2
      intro x hx
      have hx1 := (hinv x hx).1
      rw [hto] at hx1
      have : id = x.id := Option.some.inj hx1
      simp [this]

theorem clearTranslateTimeout_fields (p : Page) :
    (clearTranslateTimeout p).sourceText = p.sourceText ∧
    (clearTranslateTimeout p).lastTimerId = p.lastTimerId ∧
    (clearTranslateTimeout p).translateCalls = p.translateCalls := by
  unfold clearTranslateTimeout clearTimeout
  split
  · split <;> exact ⟨rfl, rfl, rfl⟩
  · exact ⟨rfl, rfl, rfl⟩

theorem onresult_eq_final (now : Nat) (ev : ResultEvent) (p : Page)
    (h : truthy (jsTrim (specFinalText ev)) = true) :
    onresult now ev p =
      { clearTranslateTimeout { p with sourceText := specFinalText ev ++ specInterimText ev } with
        lastTimerId :=
          (clearTranslateTimeout
            { p with sourceText := specFinalText ev ++ specInterimText ev }).lastTimerId + 1
        pendingTimers :=
          (clearTranslateTimeout
            { p with sourceText := specFinalText ev ++ specInterimText ev }).pendingTimers ++
          [⟨(clearTranslateTimeout
              { p with sourceText := specFinalText ev ++ specInterimText ev }).lastTimerId + 1,
            now + 200⟩]
        translateTimeout :=
          some ((clearTranslateTimeout
            { p with sourceText := specFinalText ev ++ specInterimText ev }).lastTimerId + 1) } := by
  simp [onresult, transcripts_eq, h, setTimeout]

/-- A result event with final text, handled in a well-formed state, leaves
exactly one pending timer, due 200 ms later. -/
theorem onresult_armed (now : Nat) (ev : ResultEvent) (p : Page) (hinv : TimerInv p)
    (hfin : jsTrim (specFinalText ev) ≠ "") :
    Armed (onresult now ev p) now (specFinalText ev ++ specInterimText ev) p.translateCalls := by
  have h : truthy (jsTrim (specFinalText ev)) = true := (truthy_ne_empty _).2 hfin
  have hinv2 : TimerInv { p with sourceText := specFinalText ev ++ specInterimText ev } := hinv
  have hp := clearTranslateTimeout_pending _ hinv2
  obtain ⟨f1, f2, f3⟩ :=
    clearTranslateTimeout_fields { p with sourceText := specFinalText ev ++ specInterimText ev }
  rw [onresult_eq_final now ev p h]
  refine ⟨?_, rfl, ?_, ?_, ?_⟩
  · simp [hp]
  · simp
  · exact f1
  · exact f3

theorem armed_inv (q : Page) (t : Nat) (src : String) (calls : List TranslateCall)
    (h : Armed q t src calls) : TimerInv q := by
  obtain ⟨h1, h2, h3, _, _⟩ := h
  intro tm htm
  rw [h1] at htm
  simp at htm
  subst htm
  exact ⟨h2, h3⟩

theorem armed_deadline (q : Page) (t : Nat) (src : String) (calls : List TranslateCall)
    (h : Armed q t src calls) : ∀ tm ∈ q.pendingTimers, tm.deadline = t + 200 := by
  obtain ⟨h1, _, _, _, _⟩ := h
  intro tm htm
  rw [h1] at htm
  simp at htm
  subst htm
  rfl

theorem deliver_result_armed (p : Page) (t : Nat) (ev : ResultEvent) (hinv : TimerInv p)
    (hfresh : ∀ tm ∈ p.pendingTimers, t < tm.deadline)
    (hfin : jsTrim (specFinalText ev) ≠ "") :
    Armed (deliver p (t, Event.result ev)) t (specFinalText ev ++ specInterimText ev)
      p.translateCalls := by
  show Armed (onresult t ev (advanceTo t p)) t _ _
  rw [advanceTo_none_due t p hfresh]
  exact onresult_armed t ev p hinv hfin

/-- Before the deadline nothing fires; from the deadline on, the one pending
timer has fired once, at the deadline, reading the source text then shown. -/
theorem advanceTo_armed (q : Page) (t : Nat) (src : String) (calls : List TranslateCall)
    (h : Armed q t src calls) (T : Nat) :
    (T < t + 200 → advanceTo T q = q) ∧
    (t + 200 ≤ T → (advanceTo T q).translateCalls = calls ++ [⟨t + 200, src⟩] ∧
      (advanceTo T q).pendingTimers = []) := by
  obtain ⟨h1, h2, h3, h4, h5⟩ := h
  constructor
  · intro hT
    apply advanceTo_none_due
    intro tm htm
    rw [h1] at htm
    simp at htm
    subst htm
    exact hT
  · intro hT
    have hstep : advanceTo T q = fireTimer ⟨q.lastTimerId, t + 200⟩ q := by
      simp [advanceTo, h1, hT]
    rw [hstep]
    unfold fireTimer translateBegin setStatus
    simp only [h1, h4, h5]
    split <;> simp

theorem translateBegin_timers (now : Nat) (p : Page) :
    (translateBegin now p).1.pendingTimers = p.pendingTimers ∧
    (translateBegin now p).1.translateTimeout = p.translateTimeout := by
  unfold translateBegin setStatus
  simp only
  split <;> exact ⟨rfl, rfl⟩

theorem translateEnd_timers (r : FetchResult) (p : Page) :
    (translateEnd r p).pendingTimers = p.pendingTimers ∧
    (translateEnd r p).translateTimeout = p.translateTimeout := by
  unfold translateEnd translateCatch setStatus
  split
  · exact ⟨rfl, rfl⟩
  · exact ⟨rfl, rfl⟩
  · exact ⟨rfl, rfl⟩
  · split <;> exact ⟨rfl, rfl⟩
  · split <;> exact ⟨rfl, rfl⟩

theorem fireTimer_inv (tm : Timer) (p : Page) (hinv : TimerInv p) : TimerInv (fireTimer tm p) := by
  intro x hx
  unfold fireTimer at hx ⊢
  simp only at hx ⊢
  obtain ⟨h1, h2⟩ := translateBegin_timers tm.deadline
    { p with pendingTimers := p.pendingTimers.filter (fun y => y.id ≠ tm.id) }
  rw [h1] at hx
  rw [h2]
  exact hinv x (List.mem_of_mem_filter hx)

theorem foldl_fireTimer_inv (tms : List Timer) :
    ∀ p : Page, TimerInv p → TimerInv (tms.foldl (fun q tm => fireTimer tm q) p) := by
  induction tms with
  | nil => intro p h; exact h
  | cons tm tms ih => intro p h; exact ih _ (fireTimer_inv tm p h)

theorem onresult_inv (now : Nat) (ev : ResultEvent) (p : Page) (hinv : TimerInv p) :
    TimerInv (onresult now ev p) := by
  cases h : truthy (jsTrim (specFinalText ev)) with
  | true =>
    exact armed_inv _ _ _ _ (onresult_armed now ev p hinv ((truthy_ne_empty _).1 h))
  | false =>
    have : onresult now ev p = { p with sourceText := specFinalText ev ++ specInterimText ev } := by
      simp [onresult, transcripts_eq, h]
    rw [this]
    exact hinv

theorem timerInv_of_same_timers (p q : Page) (h1 : q.pendingTimers = p.pendingTimers)
    (h2 : q.translateTimeout = p.translateTimeout) (hinv : TimerInv p) : TimerInv q := by
  intro x hx
  rw [h1] at hx
  rw [h2]
  exact hinv x hx

theorem onend_timers (r : StartResult) (p : Page) :
    (onend r p).pendingTimers = p.pendingTimers ∧
    (onend r p).translateTimeout = p.translateTimeout := by
  cases hl : p.listening <;> cases r <;> simp [onend, hl, setStatus]

theorem listenClick_timers (r : StartResult) (p : Page) :
    (listenClick r p).pendingTimers = p.pendingTimers ∧
    (listenClick r p).translateTimeout = p.translateTimeout := by
  cases hl : p.listening <;> cases r <;> simp [listenClick, hl, setStatus]

/-- The timer invariant holds of the loaded page and after every event. -/
theorem run_timerInv (events : List (Nat × Event)) :
    ∀ p : Page, TimerInv p → TimerInv (run p events) := by
  induction events with
  | nil => intro p h; exact h
  | cons te tes ih =>
    intro p h
    apply ih (deliver p te)
    obtain ⟨t, e⟩ := te
    have ha : TimerInv (advanceTo t p) := foldl_fireTimer_inv _ p h
    cases e with
    | result ev => exact onresult_inv t ev _ ha
    | error code => exact ha
    | ended r =>
      exact timerInv_of_same_timers _ _ (onend_timers r _).1 (onend_timers r _).2 ha
    | listenClick r =>
      exact timerInv_of_same_timers _ _ (listenClick_timers r _).1 (listenClick_timers r _).2 ha
    | translateClick =>
      exact timerInv_of_same_timers _ _ (translateBegin_timers t _).1
        (translateBegin_timers t _).2 ha
    | fetchSettled r =>
      exact timerInv_of_same_timers _ _ (translateEnd_timers r _).1 (translateEnd_timers r _).2 ha

theorem loadedPage_timerInv : TimerInv loadedPage := by
  simp [TimerInv, loadedPage]

theorem all_whitespace_of_trimChars (cs : List Char) (h : trimChars cs = []) :
    ∀ c ∈ cs, isJsWhitespace c = true := by
  unfold trimChars at h
  have h1 : (cs.dropWhile isJsWhitespace).reverse.dropWhile isJsWhitespace = [] := by
    simpa using h
  have h2 : ∀ c ∈ cs.dropWhile isJsWhitespace, isJsWhitespace c = true := by
    intro c hc
    exact List.dropWhile_eq_nil_iff.1 h1 c (List.mem_reverse.2 hc)
  apply List.dropWhile_eq_nil_iff.1
  cases hd : cs.dropWhile isJsWhitespace with
  | nil => rfl
  | cons x xs =>
    have hx : isJsWhitespace x = true := h2 x (by simp [hd])
    have hnot := List.head_dropWhile_not isJsWhitespace cs (by simp [hd])
    simp [hd, hx] at hnot

/-- Text that does not trim to nothing still does not once more text
follows it. -/
theorem jsTrim_append_ne (a b : String) (h : jsTrim a ≠ "") : jsTrim (a ++ b) ≠ "" := by
  intro hab
  apply h
  have h1 : trimChars (a ++ b).data = [] := by
    have := congrArg String.data hab
    simpa [jsTrim] using this
  have h2 := all_whitespace_of_trimChars _ h1
  have h3 : trimChars a.data = [] :=
    trimChars_of_all_whitespace _ (fun c hc => h2 c (by simp [String.data_append, hc]))
  simp [jsTrim, h3]

/-- The request sent when the one pending timer of an armed page fires. -/
theorem advanceTo_armed_fetch (q : Page) (t : Nat) (src : String) (calls : List TranslateCall)
    (h : Armed q t src calls) (hsrc : jsTrim src ≠ "") (T : Nat) (hT : t + 200 ≤ T) :
    (advanceTo T q).fetches =
      q.fetches ++ [⟨jsTrim src, if q.sourceLang = "auto" then "en" else q.sourceLang,
        q.targetLang⟩] := by
  obtain ⟨h1, h2, h3, h4, h5⟩ := h
  have hstep : advanceTo T q = fireTimer ⟨q.lastTimerId, t + 200⟩ q := by
    simp [advanceTo, h1, hT]
  have htr : truthy (jsTrim src) = true := (truthy_ne_empty _).2 hsrc
  rw [hstep]
  unfold fireTimer
  simp only
  rw [translateBegin_nonblank _ _ (by simpa [h4] using htr)]
  simp [h4]

theorem onresult_request_fields (now : Nat) (ev : ResultEvent) (p : Page) :
    (onresult now ev p).fetches = p.fetches ∧ (onresult now ev p).sourceLang = p.sourceLang ∧
    (onresult now ev p).targetLang = p.targetLang := by
  obtain ⟨a1, a2, a3, a4, a5, a6, a7, a8, a9, a10, a11, a12, a13, a14, a15⟩ := p
  unfold onresult setTimeout clearTranslateTimeout clearTimeout
  simp only
  split
  · split
    · split <;> exact ⟨rfl, rfl, rfl⟩
    · exact ⟨rfl, rfl, rfl⟩
  · exact ⟨rfl, rfl, rfl⟩

theorem run_burst_armed (events : List (Nat × ResultEvent)) :
    ∀ (p : Page) (hne : events ≠ []), TimerInv p →
      (∀ tm ∈ p.pendingTimers, (events.head hne).1 < tm.deadline) →
      (∀ te ∈ events, jsTrim (specFinalText te.2) ≠ "") → CloseTogether events →
      Armed (run p (burst events)) (events.getLast hne).1
        (specFinalText (events.getLast hne).2 ++ specInterimText (events.getLast hne).2)
        p.translateCalls ∧
      (run p (burst events)).fetches = p.fetches ∧
      (run p (burst events)).sourceLang = p.sourceLang ∧
      (run p (burst events)).targetLang = p.targetLang := by
  induction events with
  | nil => intro p hne; exact absurd rfl hne
  | cons e rest ih =>
    intro p hne hinv hfresh hfin hgap
    have h1 := deliver_result_armed p e.1 e.2 hinv hfresh (hfin e (List.mem_cons_self _ _))
    have hreq : (deliver p (e.1, Event.result e.2)).fetches = p.fetches ∧
        (deliver p (e.1, Event.result e.2)).sourceLang = p.sourceLang ∧
        (deliver p (e.1, Event.result e.2)).targetLang = p.targetLang := by
      show (onresult e.1 e.2 (advanceTo e.1 p)).fetches = p.fetches ∧
        (onresult e.1 e.2 (advanceTo e.1 p)).sourceLang = p.sourceLang ∧
        (onresult e.1 e.2 (advanceTo e.1 p)).targetLang = p.targetLang
      rw [advanceTo_none_due e.1 p hfresh]
      exact onresult_request_fields e.1 e.2 p
    cases rest with
    | nil => exact ⟨h1, hreq⟩
    | cons e2 rest2 =>
      have hchain : (e.1 ≤ e2.1 ∧ e2.1 < e.1 + 200) ∧ CloseTogether (e2 :: rest2) :=
        List.chain'_cons.1 hgap
      have hfresh2 : ∀ tm ∈ (deliver p (e.1, Event.result e.2)).pendingTimers,
          ((e2 :: rest2).head (List.cons_ne_nil _ _)).1 < tm.deadline := by
        intro tm htm
        rw [armed_deadline _ _ _ _ h1 tm htm]
        exact hchain.1.2
      have h2 := ih (deliver p (e.1, Event.result e.2)) (List.cons_ne_nil _ _)
        (armed_inv _ _ _ _ h1) hfresh2 (fun te hte => hfin te (List.mem_cons_of_mem _ hte))
        hchain.2
      rw [h1.2.2.2.2, hreq.1, hreq.2.1, hreq.2.2] at h2
      exact h2

/-- C3. Take a page in a well-formed timer state with no timer due by the
first event, and a non-empty burst of result events, each with non-blank final
text and each less than 200 ms after the one before.  Then, once the burst is
delivered, the source text is the one written by the last event;
`translateText` has not run by any time before (last event + 200); and by any
time from then on it has run exactly once, at (last event + 200), reading the
source text written by the last event and sending one request, for that text
trimmed. -/
theorem debounce_single_translate (p : Page) (events : List (Nat × ResultEvent))
    (hne : events ≠ []) (hinv : TimerInv p)
    (hfresh : ∀ tm ∈ p.pendingTimers, (events.head hne).1 < tm.deadline)
    (hfin : ∀ te ∈ events, jsTrim (specFinalText te.2) ≠ "")
    (hgap : CloseTogether events) :
    (run p (burst events)).sourceText =
      (onresult (events.getLast hne).1 (events.getLast hne).2 p).sourceText ∧
    (∀ T, T < (events.getLast hne).1 + 200 →
      (advanceTo T (run p (burst events))).translateCalls = p.translateCalls) ∧
    (∀ T, (events.getLast hne).1 + 200 ≤ T →
      (advanceTo T (run p (burst events))).translateCalls =
        p.translateCalls ++
          [⟨(events.getLast hne).1 + 200,
            (onresult (events.getLast hne).1 (events.getLast hne).2 p).sourceText⟩] ∧
      (advanceTo T (run p (burst events))).fetches =
        p.fetches ++
          [⟨jsTrim (onresult (events.getLast hne).1 (events.getLast hne).2 p).sourceText,
            if p.sourceLang = "auto" then "en" else p.sourceLang, p.targetLang⟩]) := by
  obtain ⟨h, hf, hsl, htl⟩ := run_burst_armed events p hne hinv hfresh hfin hgap
  refine ⟨?_, ?_, ?_⟩
  · rw [h.2.2.2.1, onresult_writes]
  · intro T hT
    rw [(advanceTo_armed _ _ _ _ h T).1 hT]
    exact h.2.2.2.2
  · intro T hT
    have hsrc := jsTrim_append_ne _ (specInterimText (events.getLast hne).2)
      (hfin _ (List.getLast_mem hne))
    refine ⟨?_, ?_⟩
    · rw [((advanceTo_armed _ _ _ _ h T).2 hT).1, onresult_writes]
    · rw [advanceTo_armed_fetch _ _ _ _ h hsrc T hT, onresult_writes, hf, hsl, htl]

/-- The concrete case of C3: final results at 0 ms and at 150 ms; at 350 ms
`translateText` has run once, at 350 ms, on the text of the second. -/
theorem debounce_single_translate_witness :
    (advanceTo 350 (run loadedPage (burst twoFinals))).translateCalls =
      [⟨350, "hello world"⟩] := by
  have h := (debounce_single_translate loadedPage twoFinals (by decide) (by simp [TimerInv, loadedPage])
    (by simp [loadedPage]) (by decide) (by simp [CloseTogether, twoFinals])).2.2 350 (by decide)
  rw [h.1, onresult_writes]
  decide

/-! ## Results: stopping and the pending translation -/

/-- The state `armedPage` is reached from the loaded page by a click on the
listen button and one final result. -/
theorem armedPage_reached :
    run loadedPage
      [(0, Event.listenClick StartResult.ok),
       (0, Event.result ⟨0, [⟨⟨"hello"⟩, [], true⟩]⟩)] = armedPage := by
  have h1 : deliver loadedPage (0, Event.listenClick StartResult.ok) =
      { loadedPage with
        recognitionLang := "en-IN", recCalls := [RecCall.start], listening := true
        listenLabel := stopLabel, status := ⟨"Listening...", false⟩ } := by
    decide
  have hfin : truthy (jsTrim (specFinalText ⟨0, [⟨⟨"hello"⟩, [], true⟩]⟩)) = true := by decide
  simp only [run, List.foldl_cons, List.foldl_nil, h1]
  show onresult 0 _ (advanceTo 0 _) = _
  rw [advanceTo_none_due 0 _ (by simp [loadedPage]), onresult_eq_final 0 _ _ hfin]
  decide

theorem listenClick_stop_fields (r : StartResult) (p : Page) (hl : p.listening = true) :
    (listenClick r p).pendingTimers = p.pendingTimers ∧
    (listenClick r p).translateTimeout = p.translateTimeout ∧
    (listenClick r p).lastTimerId = p.lastTimerId ∧
    (listenClick r p).sourceText = p.sourceText ∧
    (listenClick r p).translateCalls = p.translateCalls := by
  simp [listenClick, hl, setStatus]

/-- C8, as stated, fails: on `armedPage` the user is listening and the
debounce timer is pending; after the stop click the timer is still pending,
and at its deadline `translateText` runs. -/
theorem stop_does_not_cancel_counterexample :
    armedPage.listening = true ∧ armedPage.pendingTimers = [⟨1, 200⟩] ∧
    (listenClick StartResult.ok armedPage).listening = false ∧
    (listenClick StartResult.ok armedPage).pendingTimers ≠ [] ∧
    (advanceTo 200 (listenClick StartResult.ok armedPage)).translateCalls = [⟨200, "hello"⟩] ∧
    (advanceTo 200 (listenClick StartResult.ok armedPage)).fetches = [⟨"hello", "en", "kn"⟩] := by
  decide

/-- C8, amended. The stop click leaves the pending debounce timer and its
handle as they were; so when a listening page holds the timer set by a final
result at time `t`, after the stop `translateText` still runs once, at
`t + 200`, on the source text shown. -/
theorem stop_leaves_pending_translation (p : Page) (r : StartResult) (t : Nat) (src : String)
    (calls : List TranslateCall) (hl : p.listening = true) (harmed : Armed p t src calls) :
    (listenClick r p).listening = false ∧
    (listenClick r p).pendingTimers = p.pendingTimers ∧
    (listenClick r p).translateTimeout = p.translateTimeout ∧
    (∀ T, T < t + 200 → (advanceTo T (listenClick r p)).translateCalls = calls) ∧
    (∀ T, t + 200 ≤ T →
      (advanceTo T (listenClick r p)).translateCalls = calls ++ [⟨t + 200, src⟩]) := by
  obtain ⟨f1, f2, f3, f4, f5⟩ := listenClick_stop_fields r p hl
  obtain ⟨a1, a2, a3, a4, a5⟩ := harmed
  have h : Armed (listenClick r p) t src calls :=
    ⟨by rw [f1, f3]; exact a1, by rw [f2, f3]; exact a2, by rw [f3]; exact a3,
      f4.trans a4, f5.trans a5⟩
  refine ⟨by simp [listenClick, hl, setStatus], f1, f2, ?_, ?_⟩
  · intro T hT
    rw [(advanceTo_armed _ _ _ _ h T).1 hT]
    exact h.2.2.2.2
  · intro T hT
    exact ((advanceTo_armed _ _ _ _ h T).2 hT).1

/-- The concrete case of amended C8, on `armedPage`. -/
theorem stop_leaves_pending_translation_witness :
    (advanceTo 200 (listenClick StartResult.ok armedPage)).translateCalls =
      [] ++ [⟨0 + 200, "hello"⟩] :=
  (stop_leaves_pending_translation armedPage StartResult.ok 0 "hello" [] rfl
    ⟨rfl, rfl, by decide, rfl, rfl⟩).2.2.2.2 200 (by decide)

/-! ## Results: the proxy route -/

/-- A provider body that parses but holds no truthy
`responseData.translatedText` gives 502. -/
theorem translateHandler_invalid_json (body : TranslateBody) (text : String) (data : Json)
    (hq : fieldTruthy body.q = true) (ht : fieldTruthy body.target = true)
    (hmissing : ∀ v, (data.get? "responseData").bind (Json.get? "translatedText") = some v →
      v.truthy = false) :
    (translateHandler body (.response true text (.json data))).status = 502 := by
  unfold translateHandler
  simp only [hq, ht, Bool.not_true, Bool.or_self, Bool.false_eq_true, if_false]
  cases hv : (data.get? "responseData").bind (Json.get? "translatedText") with
  | none => rfl
  | some v => simp [hmissing v hv]

/-- A provider body that is not JSON gives 500, through the `catch`. -/
theorem translateHandler_not_json (body : TranslateBody) (text message : String)
    (hq : fieldTruthy body.q = true) (ht : fieldTruthy body.target = true) :
    (translateHandler body (.response true text (.notJson message))).status = 500 := by
  simp [translateHandler, hq, ht]

/-- C9, at the failing input: `q` and `target` present, the provider answers
with a success status and an HTML body; the route replies 500, not 502. -/
theorem translate_route_not_json_is_500 :
    (translateHandler ⟨some "hello", none, some "kn"⟩
      (.response true "<html>busy</html>" (.notJson "Unexpected token < in JSON at position 0"))).status
      = 500 ∧
    (translateHandler ⟨some "hello", none, some "kn"⟩
      (.response true "null" (.json Json.null))).status = 502 := by
  decide

end LiveSpeech
